import Mathlib

/-!
Shallow embedding of the Harvard Decadac driver
(`qcodes/instrument_drivers/Harvard/Decadac.py`) and proofs about it.

Numeric model: Python floats are idealised as rationals (`ℚ`), Python ints as
`ℤ`.  Python exceptions are modelled by an explicit error enumeration indexed
by the raise site; `HarvardDecadacException` raise sites are those for which
`PyErr.isHarvard` is `true`, the remaining constructors model builtin Python
exceptions (`ValueError`, `IndexError`, `ZeroDivisionError`), qcodes
validator rejections, and two transport-model artifacts.
-/

set_option allowUnsafeReducibility true
attribute [semireducible] Rat.add Rat.mul Rat.sub Rat.div Rat.neg Rat.inv Rat.floor Rat.ceil
set_option allowUnsafeReducibility false

deriving instance DecidableEq for Except

/-- Errors of the embedded driver, one constructor per raise site. -/
inductive PyErr where
  /-- `_dac_parse`: "Unexpected terminator on response" (`HarvardDecadacException`). -/
  | badTerminator
  /-- `_query_address`/`_write_address`: "Invalid address" (`HarvardDecadacException`);
      the spec's `AddressError` category. -/
  | invalidAddress
  /-- `_write_address`: "Writing invalid value" (`HarvardDecadacException`);
      the spec's register-width `ValueError` category. -/
  | invalidValue
  /-- `_query_address`/`_write_address`: "Failed to set EEPROM address"
      (`HarvardDecadacException`). -/
  | failedSetAddress
  /-- `_write_address`: "Failed to write value" (`HarvardDecadacException`). -/
  | failedWrite
  /-- `_set_slot`: slot echo mismatch (`HarvardDecadacException`). -/
  | badSlotEcho
  /-- `_set_channel`: channel echo mismatch (`HarvardDecadacException`). -/
  | badChannelEcho
  /-- `_dac_v_to_code`: voltage out of range (a Python `ValueError`);
      the spec's `RangeError` category. -/
  | voltageRange
  /-- `_dac_v_to_code`: defensive code-out-of-bounds check (a Python `ValueError`). -/
  | codeBounds
  /-- Python `int(...)` applied to a non-numeric string (`ValueError`). -/
  | intParse
  /-- Python `resp[-1]` on an empty string (`IndexError`). -/
  | indexError
  /-- Python `ZeroDivisionError`. -/
  | zeroDivision
  /-- A qcodes parameter validator rejected the value. -/
  | validationError
  /-- Transport-model artifact: `ask` issued but no queued response is left. -/
  | noResponse
  /-- Model artifact: fuel for an unbounded polling loop ran out. -/
  | fuelOut
deriving DecidableEq, Repr

/-- Whether the error is a `HarvardDecadacException` (the only class the
driver's own `try/except` blocks catch). -/
def PyErr.isHarvard : PyErr → Bool
  | .badTerminator | .invalidAddress | .invalidValue | .failedSetAddress
  | .failedWrite | .badSlotEcho | .badChannelEcho => true
  | _ => false

/-- Characters removed by Python `str.strip()` (the ASCII whitespace subset
that can occur in serial responses). -/
def isPySpace (c : Char) : Bool :=
  c == ' ' || c == '\t' || c == '\n' || c == '\r' ||
  c == Char.ofNat 11 || c == Char.ofNat 12

/-- Python `str.strip()` on a character list: drop whitespace from both ends. -/
def pyStripL (cs : List Char) : List Char :=
  ((cs.dropWhile isPySpace).reverse.dropWhile isPySpace).reverse

/-- Python `str.strip()`. -/
def pyStrip (s : String) : String :=
  ⟨pyStripL s.data⟩

/-- Embedding of `DacReader._dac_parse`:
strip the response, require its last character to be `'!'`
(raising `HarvardDecadacException` otherwise, and Python `IndexError` when the
stripped string is empty), and return `resp.strip()[1:-1]`. -/
def dacParse (raw : String) : Except PyErr String :=
  let resp := pyStrip raw
  match resp.data.getLast? with
  | none => .error .indexError
  | some c =>
    if c ≠ '!' then .error .badTerminator
    else .ok ⟨((pyStrip resp).data.drop 1).dropLast⟩

/-- Decimal value of a digit-character list (most significant first). -/
def digitsVal (cs : List Char) : ℕ :=
  cs.foldl (fun a c => 10 * a + (c.toNat - 48)) 0

/-- Python `int(s)`: strip surrounding whitespace, allow one optional sign,
then require a non-empty run of decimal digits; `ValueError` otherwise. -/
def pyInt (s : String) : Except PyErr ℤ :=
  match pyStripL s.data with
  | [] => .error .intParse
  | '-' :: rest =>
    if rest ≠ [] ∧ rest.all Char.isDigit then .ok (-(digitsVal rest : ℤ))
    else .error .intParse
  | '+' :: rest =>
    if rest ≠ [] ∧ rest.all Char.isDigit then .ok (digitsVal rest : ℤ)
    else .error .intParse
  | cs =>
    if cs.all Char.isDigit then .ok (digitsVal cs : ℤ)
    else .error .intParse

/-- `int(self._dac_parse(resp))`, the composite the driver applies to every
numeric response. -/
def parseIntResp (resp : String) : Except PyErr ℤ :=
  match dacParse resp with
  | .ok s => pyInt s
  | .error e => .error e

/-- Python 3 `round(q)` (banker's rounding: ties go to the even integer). -/
def pyRound (q : ℚ) : ℤ :=
  if Int.fract q < 1/2 then ⌊q⌋
  else if 1/2 < Int.fract q then ⌊q⌋ + 1
  else if ⌊q⌋ % 2 = 0 then ⌊q⌋ else ⌊q⌋ + 1

/-- Python `int(q)` on a float: truncation toward zero. -/
def pyTrunc (q : ℚ) : ℤ :=
  if 0 ≤ q then ⌊q⌋ else ⌈q⌉

/-- Python float division, raising `ZeroDivisionError` on a zero divisor. -/
def pyDiv (a b : ℚ) : Except PyErr ℚ :=
  if b = 0 then .error .zeroDivision else .ok (a / b)

/-- Embedding of `DacReader._dac_v_to_code`: range-check the voltage, convert
to a 16-bit code by `round(frac * 65535)`, and defensively re-check bounds. -/
def dacV2c (minVal maxVal volt : ℚ) : Except PyErr ℤ :=
  if volt < minVal ∨ volt > maxVal then .error .voltageRange
  else
    match pyDiv (volt - minVal) (maxVal - minVal) with
    | .error e => .error e
    | .ok frac =>
      let val := pyRound (frac * 65535)
      if val > 65535 ∨ val < 0 then .error .codeBounds
      else .ok val

/-- Embedding of `DacReader._dac_code_to_v`:
`frac = code / 65535.0; frac * (max_val - min_val) + min_val`. -/
def dacC2v (minVal maxVal : ℚ) (code : ℤ) : ℚ :=
  (code : ℚ) / 65535 * (maxVal - minVal) + minVal

/-- Decimal digits of `n`, most significant first, with `fuel` bounding the
recursion depth (`fuel = n` always suffices). -/
def natDecAux (fuel n : ℕ) : List Char :=
  match fuel with
  | 0 => []
  | f + 1 =>
    if n = 0 then []
    else natDecAux f (n / 10) ++ [Char.ofNat (48 + n % 10)]

/-- Python `str(n)` for a natural number. -/
def natDec (n : ℕ) : String :=
  if n = 0 then "0" else ⟨natDecAux n n⟩

/-- Python `str(i)` for an integer (an f-string `{i}` substitution). -/
def intDec (i : ℤ) : String :=
  if i < 0 then "-" ++ natDec i.natAbs else natDec i.natAbs

/-- State of the byte-stream transport: commands sent so far and queued
responses not yet consumed (one response per command, in order). -/
structure Trace where
  sent : List String
  pending : List String
deriving DecidableEq, Repr

/-- Driver computations: state-passing over the transport trace with Python
exceptions; the trace survives an exception (side effects are kept). -/
def Step (α : Type) : Type :=
  Trace → Except PyErr α × Trace

instance : Monad Step where
  pure a := fun t => (.ok a, t)
  bind m f := fun t =>
    match m t with
    | (.ok a, t') => f a t'
    | (.error e, t') => (.error e, t')

/-- Raise a Python exception. -/
def throwE (e : PyErr) : Step α :=
  fun t => (.error e, t)

/-- Run a pure `Except` computation inside `Step`. -/
def liftE (r : Except PyErr α) : Step α :=
  fun t => (r, t)

/-- Embedding of `ask_raw`: send one command and consume the next queued
response (the driver's strict request/response discipline). -/
def askRaw (cmd : String) : Step String :=
  fun t =>
    match t.pending with
    | [] => (.error .noResponse, ⟨t.sent ++ [cmd], []⟩)
    | r :: rs => (.ok r, ⟨t.sent ++ [cmd], rs⟩)

/-- Embedding of `DacReader._set_slot`: issue `"B{slot};"` and require the
parsed echo to equal the slot. -/
def setSlot (slot : ℕ) : Step Unit := do
  let resp ← askRaw ("B" ++ natDec slot ++ ";")
  let v ← liftE (parseIntResp resp)
  if v = (slot : ℤ) then pure () else throwE .badSlotEcho

/-- Channel-select command `"B{slot};C{channel};"`. -/
def chanSelectCmd (slot chan : ℕ) : String :=
  "B" ++ natDec slot ++ ";C" ++ natDec chan ++ ";"

/-- Expected channel-select echo `"B{slot}!C{channel}!"`. -/
def chanSelectEcho (slot chan : ℕ) : String :=
  "B" ++ natDec slot ++ "!C" ++ natDec chan ++ "!"

/-- Embedding of `DacReader._set_channel`: issue `"B{slot};C{channel};"` and
require the stripped echo to equal `"B{slot}!C{channel}!"`. -/
def setChannel (slot chan : ℕ) : Step Unit := do
  let resp ← askRaw (chanSelectCmd slot chan)
  if pyStrip resp = chanSelectEcho slot chan then pure ()
  else throwE .badChannelEcho

/-- Word-reading loop of `DacReader._query_address`: for each remaining word,
set the address cursor (`"A{addr};"`, echo must parse back to `addr`), issue
the query command, and accumulate `val += word << (32 * (count - i - 1))`
(expressed as multiplication by `2 ^ (32 * n)` with `n` words remaining after
this one). -/
def queryLoop (queryCommand : String) : ℕ → ℤ → ℤ → Step ℤ
  | 0, _, val => pure val
  | n + 1, addr, val => do
    let r ← askRaw ("A" ++ intDec addr ++ ";")
    let ret ← liftE (parseIntResp r)
    if ret ≠ addr then throwE .failedSetAddress
    else do
      let w ← askRaw queryCommand
      let wv ← liftE (parseIntResp w)
      queryLoop queryCommand n (addr + 1) (val + wv * 2 ^ (32 * n))

/-- Embedding of `DacReader._query_address`. `slot` is the `self._slot`
attribute consulted only on the versa-EEPROM path. -/
def queryAddress (slot : ℕ) (addr : ℤ) (count : ℕ) (versa : Bool) : Step ℤ :=
  if count = 0 then pure 0
  else if addr < 0 ∨ addr > 1107296266 then throwE .invalidAddress
  else if versa then do
    setSlot slot
    queryLoop "e;" count addr 0
  else queryLoop "p;" count addr 0

/-- Embedding of `DacReader._write_address`. -/
def writeAddress (slot : ℕ) (addr : ℤ) (val : ℤ) (versa : Bool) : Step Unit :=
  if addr < 0 ∨ addr > 1107296266 then throwE .invalidAddress
  else if val < 0 ∨ val ≥ 2 ^ 32 then throwE .invalidValue
  else do
    if versa then setSlot slot else pure ()
    let r ← askRaw ("A" ++ intDec addr ++ ";")
    let ret ← liftE (parseIntResp r)
    if ret ≠ addr then throwE .failedSetAddress
    else do
      let _ ← askRaw ((if versa then "E" else "P") ++ intDec val ++ ";")
      let chk ← askRaw (if versa then "e;" else "p;")
      let cv ← liftE (parseIntResp chk)
      if cv ≠ val then throwE .failedWrite else pure ()

/-- Per-channel base register address `1536 + (16 * 4) * slot + 16 * channel`
from `HarvardDecadacChannel.__init__`. -/
def chanBaseAddr (slot chan : ℕ) : ℤ :=
  1536 + 16 * 4 * (slot : ℤ) + 16 * (chan : ℤ)

/-- qcodes `Parameter.set` for `upper_ramp_limit` / `lower_ramp_limit`
(`set_cmd="U{};"` resp. `"L{};"`, `set_parser=_dac_v_to_code`,
`vals=Numbers(min_val, max_val)`): validate, convert to a code, then send via
the channel's overloaded `write` (channel select first, echo consumed,
the command's own response consumed unchecked). -/
def setLimitParam (letter : String) (slot chan : ℕ) (minVal maxVal val : ℚ) :
    Step Unit := do
  if val < minVal ∨ val > maxVal then throwE .validationError
  else do
    let code ← liftE (dacV2c minVal maxVal val)
    setChannel slot chan
    let _ ← askRaw (letter ++ intDec code ++ ";")
    pure ()

/-- qcodes `Parameter.set` for `slope` (`set_cmd="S{};"`, `set_parser=int`,
`vals=Ints(-(2**32), 2**32)`), sent via the channel's overloaded `write`. -/
def setSlopeParam (slot chan : ℕ) (slope : ℤ) : Step Unit := do
  if slope < -(2 ^ 32) ∨ slope > 2 ^ 32 then throwE .validationError
  else do
    setChannel slot chan
    let _ ← askRaw ("S" ++ intDec slope ++ ";")
    pure ()

/-- `self.volt.get()`: `get_cmd=partial(_query_address, base_addr + 9, 1)`,
`get_parser=_dac_code_to_v`. -/
def voltGet (slot chan : ℕ) (minVal maxVal : ℚ) : Step ℚ := do
  let code ← queryAddress slot (chanBaseAddr slot chan + 9) 1 false
  pure (dacC2v minVal maxVal code)

/-- `self.update_period.get()`: `get_cmd=partial(_query_address, base_addr)`,
`get_parser=int`. -/
def updatePeriodGet (slot chan : ℕ) : Step ℤ :=
  queryAddress slot (chanBaseAddr slot chan) 1 false

/-- `self.slope.get()`: `get_cmd=partial(_query_address, base_addr + 6, 2)`,
`get_parser=int`. -/
def slopeGet (slot chan : ℕ) : Step ℤ :=
  queryAddress slot (chanBaseAddr slot chan + 6) 2 false

/-- Embedding of `HarvardDecadacChannel._ramp` up to and including arming
(everything before the optional blocking poll loop).  Python float divisions
are checked (`ZeroDivisionError` on a zero divisor) and floats are idealised
as rationals (`1e-6` as `1/1000000`).  The Python method returns `None`; the
embedding returns `none` on the already-at-target early return and
`some slope` once the ramp is armed, so theorems can name the armed slope. -/
def rampArm (slot chan : ℕ) (minVal maxVal val rate : ℚ) : Step (Option ℤ) := do
  let cVolt ← voltGet slot chan minVal maxVal
  if cVolt = val then pure none
  else do
    let cVal ← liftE (dacV2c minVal maxVal cVolt)
    let eVal ← liftE (dacV2c minVal maxVal val)
    let p ← updatePeriodGet slot chan
    let tRate ← liftE (pyDiv 1 ((p : ℚ) * (1 / 1000000)))
    let dq ← liftE (pyDiv (cVolt - val) rate)
    let secs := |dq|
    let sq ← liftE (pyDiv ((eVal - cVal : ℤ) : ℚ) (tRate * secs))
    let slope := pyTrunc (sq * 65536)
    if slope > 0 then setLimitParam "U" slot chan minVal maxVal val
    else setLimitParam "L" slot chan minVal maxVal val
    setSlopeParam slot chan slope
    pure (some slope)

/-- Blocking wait `while self.slope.get() != 0: pass`, with explicit fuel
since the source loop is unbounded. -/
def pollSlope (slot chan : ℕ) : ℕ → Step Unit
  | 0 => throwE .fuelOut
  | f + 1 => do
    let s ← slopeGet slot chan
    if s ≠ 0 then pollSlope slot chan f else pure ()

/-- Embedding of the whole `HarvardDecadacChannel._ramp`: arm, then (if
`block`) poll the slope register until it reads 0.  The early already-at-target
return skips the poll loop as in the source. -/
def ramp (slot chan : ℕ) (minVal maxVal val rate : ℚ) (block : Bool)
    (fuel : ℕ) : Step (Option ℤ) := do
  let r ← rampArm slot chan minVal maxVal val rate
  match r with
  | none => pure none
  | some s =>
    if block then do
      pollSlope slot chan fuel
      pure (some s)
    else pure (some s)

/-- Channel declaration order of `HarvardDecadac.__init__`: slots 0–4
ascending, channels 0–3 ascending within each slot. -/
def decadacChannels : List (ℕ × ℕ) :=
  (List.range 5).flatMap fun s => (List.range 4).map fun c => (s, c)

/-- First phase of `ramp_all`: `for chan in self.channels:
chan._ramp(volt, ramp_rate, block=False)`. -/
def armChannels (minVal maxVal volt rate : ℚ) : List (ℕ × ℕ) → Step Unit
  | [] => pure ()
  | sc :: rest => do
    let _ ← ramp sc.1 sc.2 minVal maxVal volt rate false 0
    armChannels minVal maxVal volt rate rest

/-- Second phase of `ramp_all`: `for chan in self.channels:
while chan.slope.get(): pass`. -/
def pollChannels (fuel : ℕ) : List (ℕ × ℕ) → Step Unit
  | [] => pure ()
  | sc :: rest => do
    pollSlope sc.1 sc.2 fuel
    pollChannels fuel rest

/-- Embedding of `HarvardDecadac.ramp_all`: start every channel ramping
(`block=False`) in declaration order, then poll every channel's slope register
in the same order until each reads 0 (`fuel` bounds each unbounded loop). -/
def rampAll (minVal maxVal volt rate : ℚ) (fuel : ℕ) : Step Unit := do
  armChannels minVal maxVal volt rate decadacChannels
  pollChannels fuel decadacChannels

/-- Result of `HarvardDecadac._feature_detect`.  `cal = none` records that the
`_cal_supported` attribute was never assigned (the state right after a fresh
construction). -/
structure Features where
  eeprom : Bool
  versa : Bool
  cal : Option Bool
  version : ℤ
  serialNo : ℤ
deriving DecidableEq, Repr

/-- Python `try: m / except HarvardDecadacException: h` — only the driver's
own exception class is caught; transport side effects are kept. -/
def catchHarvard (m : Step α) (h : Step α) : Step α :=
  fun t =>
    match m t with
    | (.ok a, t') => (.ok a, t')
    | (.error e, t') => if e.isHarvard then h t' else (.error e, t')

/-- Embedding of `HarvardDecadac._feature_detect` at construction time. -/
def featureDetect : Step Features := do
  -- EEPROM probe: value 21930 at the fixed identity address.
  let eeprom ← catchHarvard
    (do
      let v ← queryAddress 0 1107296256 1 false
      pure (v == 21930))
    (pure false)
  -- `_VERSA_EEPROM_available` is assigned False unconditionally (source
  -- comment: "the value never gets set to True in this driver").
  let versa := false
  -- Versa-EEPROM probe under a temporary `self._slot = 0`; result discarded.
  catchHarvard
    (do
      let _ ← queryAddress 0 6 1 true
      pure ())
    (pure ())
  -- Calibration probe: `if self._dac_parse(self.ask("k;")): _cal_supported = True`
  -- — on a truthy (non-empty) payload the flag is set True; on a falsy payload
  -- NO assignment happens (modelled as `none`); a caught
  -- `HarvardDecadacException` sets it False.
  let cal ← catchHarvard
    (do
      let r ← askRaw "k;"
      let s ← liftE (dacParse r)
      if s ≠ "" then pure (some true) else pure none)
    (pure (some false))
  -- Version and serial number, only when the EEPROM answered.
  if eeprom then do
    let ver ← queryAddress 0 1107296266 1 false
    let ser ← queryAddress 0 1107296264 1 false
    pure ⟨eeprom, versa, cal, ver, ser⟩
  else pure ⟨eeprom, versa, cal, 0, 0⟩

/-- Specification helper: computation `m`, started on any trace whose queue
begins with `rs`, consumes exactly `rs`, sends exactly `cmds`, and returns
`a`. -/
def RunsTo (m : Step α) (rs : List String) (a : α) (cmds : List String) : Prop :=
  ∀ t rest, t.pending = rs ++ rest → m t = (.ok a, ⟨t.sent ++ cmds, rest⟩)

/-- Specification helper: the spec's most-significant-word-first accumulation
`value = value * 2^32 + word`. -/
def mswFold (ws : List ℤ) : ℤ :=
  ws.foldl (fun v w => v * 2 ^ 32 + w) 0

/-- Positional value of a word list, most significant first. -/
def wsum : List ℤ → ℤ
  | [] => 0
  | w :: rest => w * 2 ^ (32 * rest.length) + wsum rest

/-- Commands of an `n`-word register read starting at `addr`. -/
def queryCmds (addr : ℤ) : ℕ → List String
  | 0 => []
  | n + 1 => ("A" ++ intDec addr ++ ";") :: "p;" :: queryCmds (addr + 1) n

/-- Response items (`echo`, `payload`, `word`) of an `n`-word read: each echo
parses back to the ascending address and each payload to the word value. -/
def GoodEchoes (addr : ℤ) : List (String × String × ℤ) → Prop
  | [] => True
  | it :: rest =>
    parseIntResp it.1 = .ok addr ∧ parseIntResp it.2.1 = .ok it.2.2 ∧
      GoodEchoes (addr + 1) rest

/-- Queued responses of a word-read item list. -/
def itemResponses (items : List (String × String × ℤ)) : List String :=
  items.flatMap fun it => [it.1, it.2.1]

/-- Word values of a word-read item list. -/
def itemWords (items : List (String × String × ℤ)) : List ℤ :=
  items.map fun it => it.2.2

/-- Poll-phase commands: address-cursor sets and read queries only, never a
limit/slope/value write. -/
def IsPollCmd (c : String) : Prop :=
  c = "p;" ∨ ∃ a : ℤ, c = "A" ++ intDec a ++ ";"

/-- A computation whose every transport command is a slope-poll command
(address-cursor set or read query), on every trace and every outcome. -/
def SentOnlyPoll (m : Step α) : Prop :=
  ∀ t : Trace, ∃ extra, (m t).2.sent = t.sent ++ extra ∧
    ∀ c ∈ extra, IsPollCmd c

/-- Witness data for the `ramp_all` scenario (all channels at code 0, update
period 100 µs, target 5 V, rate 1/2 V/s): queued responses arming one
channel. -/
def wArmR (sc : ℕ × ℕ) : List String :=
  ["A" ++ intDec (chanBaseAddr sc.1 sc.2 + 9) ++ "!", "p0!",
    "A" ++ intDec (chanBaseAddr sc.1 sc.2) ++ "!", "p100!",
    chanSelectEcho sc.1 sc.2, "U!", chanSelectEcho sc.1 sc.2, "S!"]

/-- Witness data: commands sent while arming one channel in that scenario. -/
def wArmC (sc : ℕ × ℕ) : List String :=
  ["A" ++ intDec (chanBaseAddr sc.1 sc.2 + 9) ++ ";", "p;",
    "A" ++ intDec (chanBaseAddr sc.1 sc.2) ++ ";", "p;",
    chanSelectCmd sc.1 sc.2, "U" ++ intDec 65535 ++ ";",
    chanSelectCmd sc.1 sc.2, "S" ++ intDec 21474 ++ ";"]

/-- Witness data: queued responses for one slope poll reading 0. -/
def wPollR (sc : ℕ × ℕ) : List String :=
  ["A" ++ intDec (chanBaseAddr sc.1 sc.2 + 6) ++ "!", "p0!",
    "A" ++ intDec (chanBaseAddr sc.1 sc.2 + 7) ++ "!", "p0!"]

/-- Witness data: commands of one slope poll. -/
def wPollC (sc : ℕ × ℕ) : List String :=
  ["A" ++ intDec (chanBaseAddr sc.1 sc.2 + 6) ++ ";", "p;",
    "A" ++ intDec (chanBaseAddr sc.1 sc.2 + 7) ++ ";", "p;"]

theorem pyRound_sub_abs (q : ℚ) : |(pyRound q : ℚ) - q| ≤ 1/2 := by
  have h0 : (0:ℚ) ≤ Int.fract q := Int.fract_nonneg q
  have h1 : Int.fract q < 1 := Int.fract_lt_one q
  have hf : Int.fract q = q - ⌊q⌋ := rfl
  unfold pyRound
  split_ifs with ha hb hc <;> rw [abs_le] <;> constructor <;> push_cast <;> linarith

theorem pyRound_nonneg {q : ℚ} (h : 0 ≤ q) : 0 ≤ pyRound q := by
  have h0 : 0 ≤ ⌊q⌋ := Int.floor_nonneg.mpr h
  unfold pyRound
  split_ifs <;> omega

theorem pyRound_le {q : ℚ} {n : ℤ} (h : q ≤ (n : ℚ)) : pyRound q ≤ n := by
  have h0 : ⌊q⌋ ≤ n := by
    have := Int.floor_le_floor h
    rwa [Int.floor_intCast] at this
  have hf : Int.fract q = q - ⌊q⌋ := rfl
  unfold pyRound
  split_ifs with ha hb hc
  · exact h0
  · have hlt : (⌊q⌋ : ℚ) < q := by linarith
    have : ⌊q⌋ < n := by exact_mod_cast lt_of_lt_of_le hlt h
    omega
  · exact h0
  · have hab : (1:ℚ)/2 ≤ Int.fract q := le_of_not_lt ha
    have hlt : (⌊q⌋ : ℚ) < q := by linarith
    have : ⌊q⌋ < n := by exact_mod_cast lt_of_lt_of_le hlt h
    omega

/-- Helper: on an in-range voltage (with a nondegenerate range) `_dac_v_to_code`
succeeds, the code is `round(frac * 65535)`, and it lies in `[0, 65535]`. -/
theorem dacV2c_ok {minVal maxVal volt : ℚ} (hlt : minVal < maxVal)
    (h1 : minVal ≤ volt) (h2 : volt ≤ maxVal) :
    dacV2c minVal maxVal volt =
      .ok (pyRound ((volt - minVal) / (maxVal - minVal) * 65535)) ∧
    0 ≤ pyRound ((volt - minVal) / (maxVal - minVal) * 65535) ∧
    pyRound ((volt - minVal) / (maxVal - minVal) * 65535) ≤ 65535 := by
  have hD : maxVal - minVal ≠ 0 := sub_ne_zero.mpr hlt.ne'
  have hD0 : (0:ℚ) < maxVal - minVal := by linarith
  have hfrac0 : 0 ≤ (volt - minVal) / (maxVal - minVal) :=
    div_nonneg (by linarith) (by linarith)
  have hfrac1 : (volt - minVal) / (maxVal - minVal) ≤ 1 :=
    (div_le_one hD0).mpr (by linarith)
  have hcode0 : 0 ≤ pyRound ((volt - minVal) / (maxVal - minVal) * 65535) :=
    pyRound_nonneg (by positivity)
  have hcode1 : pyRound ((volt - minVal) / (maxVal - minVal) * 65535) ≤ 65535 := by
    refine pyRound_le ?_
    push_cast
    nlinarith
  refine ⟨?_, hcode0, hcode1⟩
  unfold dacV2c pyDiv
  rw [if_neg (by push_neg; exact ⟨h1, h2⟩), if_neg hD]
  simp only
  rw [if_neg (by push_neg; exact ⟨hcode1, hcode0⟩)]

theorem pure_def (a : α) : (pure a : Step α) = fun t => (.ok a, t) := rfl

theorem bind_def (m : Step α) (f : α → Step β) :
    (m >>= f) = fun t =>
      match m t with
      | (.ok a, t') => f a t'
      | (.error e, t') => (.error e, t') := rfl

theorem runsTo_pure (a : α) : RunsTo (pure a : Step α) [] a [] := by
  intro t rest h
  simp only [List.nil_append] at h
  cases t
  simp_all [pure_def]

theorem runsTo_liftE (a : α) : RunsTo (liftE (.ok a)) [] a [] := by
  intro t rest h
  simp only [List.nil_append] at h
  cases t
  simp_all [liftE]

theorem runsTo_askRaw (cmd r : String) : RunsTo (askRaw cmd) [r] r [cmd] := by
  intro t rest h
  simp [askRaw, h]

theorem runsTo_bind {m : Step α} {f : α → Step β} {rs₁ cs₁ rs₂ cs₂ : List String}
    {a : α} {b : β} (h1 : RunsTo m rs₁ a cs₁) (h2 : RunsTo (f a) rs₂ b cs₂) :
    RunsTo (m >>= f) (rs₁ ++ rs₂) b (cs₁ ++ cs₂) := by
  intro t rest h
  rw [bind_def]
  have e1 := h1 t (rs₂ ++ rest) (by rw [h, List.append_assoc])
  simp only [e1]
  have e2 := h2 ⟨t.sent ++ cs₁, rs₂ ++ rest⟩ rest rfl
  simp only at e2
  rw [e2, List.append_assoc]

theorem setSlot_runsTo {slot : ℕ} {r : String}
    (hp : parseIntResp r = .ok (slot : ℤ)) :
    RunsTo (setSlot slot) [r] () ["B" ++ natDec slot ++ ";"] := by
  intro t rest h
  simp [setSlot, bind_def, askRaw, h, liftE, hp, pure_def]

theorem setChannel_runsTo {slot chan : ℕ} {r : String}
    (hp : pyStrip r = chanSelectEcho slot chan) :
    RunsTo (setChannel slot chan) [r] () [chanSelectCmd slot chan] := by
  intro t rest h
  simp [setChannel, bind_def, askRaw, h, hp, pure_def]

theorem queryLoop_runsTo (items : List (String × String × ℤ)) :
    ∀ (addr val : ℤ), GoodEchoes addr items →
      RunsTo (queryLoop "p;" items.length addr val) (itemResponses items)
        (val + wsum (itemWords items)) (queryCmds addr items.length) := by
  induction items with
  | nil =>
    intro addr val _
    simpa [itemResponses, itemWords, wsum, queryCmds, queryLoop]
      using runsTo_pure val
  | cons it rest ih =>
    intro addr val hg
    obtain ⟨h1, h2, hg'⟩ := hg
    intro t rest' h
    simp only [itemResponses, List.flatMap_cons, List.cons_append,
      List.append_assoc, List.nil_append] at h
    simp only [List.length_cons, queryLoop, bind_def, askRaw, h, liftE, h1, h2,
      if_neg (show ¬(addr ≠ addr) by simp), pure_def]
    simp only [List.nil_append, List.append_assoc, List.singleton_append]
    have ihh := ih (addr + 1) (val + it.2.2 * 2 ^ (32 * rest.length)) hg'
      ⟨t.sent ++ ["A" ++ intDec addr ++ ";", "p;"],
        (rest.flatMap fun x => [x.1, x.2.1]) ++ rest'⟩ rest'
      (by simp [itemResponses])
    simp only at ihh
    rw [ihh]
    simp only [Prod.mk.injEq, Except.ok.injEq, Trace.mk.injEq]
    refine ⟨?_, ?_, trivial⟩
    · simp only [itemWords, List.map_cons, wsum, List.length_map]
      ring
    · simp [queryCmds, List.append_assoc]

theorem foldl_msw (ws : List ℤ) :
    ∀ v : ℤ, ws.foldl (fun a w => a * 2 ^ 32 + w) v =
      v * 2 ^ (32 * ws.length) + wsum ws := by
  induction ws with
  | nil => intro v; simp [wsum]
  | cons w rest ih =>
    intro v
    simp only [List.foldl_cons, ih, wsum, List.length_cons]
    rw [show 32 * (rest.length + 1) = 32 * rest.length + 32 by ring, pow_add]
    ring

theorem mswFold_eq (ws : List ℤ) : mswFold ws = wsum ws := by
  rw [mswFold, foldl_msw]
  simp

theorem queryAddress_runsTo (slot : ℕ) {addr : ℤ}
    (items : List (String × String × ℤ)) (hn : items ≠ [])
    (h0 : 0 ≤ addr) (h1 : addr ≤ 1107296266) (hg : GoodEchoes addr items) :
    RunsTo (queryAddress slot addr items.length false) (itemResponses items)
      (wsum (itemWords items)) (queryCmds addr items.length) := by
  have hlen : items.length ≠ 0 := by simpa using hn
  unfold queryAddress
  rw [if_neg hlen, if_neg (by push_neg; exact ⟨h0, h1⟩)]
  simpa using queryLoop_runsTo items addr 0 hg

/-- C6: for every valid address and `word_count ≥ 1`, a multi-word register
read performs `word_count` single-word round-trips at consecutive ascending
addresses (`"A{addr};"` then `"p;"` per word), each address-set echo must
parse back to the address sent — otherwise the read fails with the
`HarvardDecadacException` "Failed to set EEPROM address" (the spec's
`ProtocolError`) — and the result is the most-significant-word-first
accumulation `value = value * 2^32 + word` over the words read. -/
theorem c6_multiword_read :
    (∀ (slot : ℕ) (addr : ℤ) (items : List (String × String × ℤ)),
      items ≠ [] → 0 ≤ addr → addr ≤ 1107296266 → GoodEchoes addr items →
      RunsTo (queryAddress slot addr items.length false) (itemResponses items)
        (mswFold (itemWords items)) (queryCmds addr items.length)) ∧
    (∀ (slot : ℕ) (addr e : ℤ) (count : ℕ) (r : String) (t : Trace)
      (rest : List String),
      0 ≤ addr → addr ≤ 1107296266 → count ≠ 0 →
      t.pending = r :: rest → parseIntResp r = .ok e → e ≠ addr →
      (queryAddress slot addr count false t).1 = .error .failedSetAddress) := by
  constructor
  · intro slot addr items hn h0 h1 hg
    rw [mswFold_eq]
    exact queryAddress_runsTo slot items hn h0 h1 hg
  · intro slot addr e count r t rest h0 h1 hc hp hr he
    obtain ⟨n, rfl⟩ : ∃ n, count = n + 1 := ⟨count - 1, by omega⟩
    have hq : queryAddress slot addr (n + 1) false = queryLoop "p;" (n + 1) addr 0 := by
      unfold queryAddress
      rw [if_neg (by omega), if_neg (by push_neg; exact ⟨h0, h1⟩)]
      rfl
    rw [hq]
    simp only [queryLoop, bind_def, askRaw, hp, liftE, hr]
    rw [if_pos he]
    rfl

/-- C6 witness: a two-word read of `[0x1, 0x2]` at address 10 over two
round-trips yields `(1 <<< 32) ||| 2`, and an address-echo mismatch fails. -/
theorem c6_multiword_read_witness :
    queryAddress 0 10 2 false ⟨[], ["A10!", "p1!", "A11!", "p2!"]⟩ =
      (.ok (((1 <<< 32 ||| 2 : ℕ) : ℤ)), ⟨["A10;", "p;", "A11;", "p;"], []⟩) ∧
    (queryAddress 0 10 1 false ⟨[], ["A11!"]⟩).1 = .error .failedSetAddress := by
  constructor
  · have e := c6_multiword_read.1 0 10 [("A10!", "p1!", 1), ("A11!", "p2!", 2)]
      (by decide) (by decide) (by decide)
      (⟨by decide, by decide, by decide, by decide, trivial⟩)
      ⟨[], ["A10!", "p1!", "A11!", "p2!"]⟩ [] (by decide)
    exact e.trans (by decide)
  · exact c6_multiword_read.2 0 10 11 1 "A11!" ⟨[], ["A11!"]⟩ []
      (by decide) (by decide) (by decide) rfl (by decide) (by decide)

/-- C7: register reads and writes at an address outside `[0, 1107296266]` fail
with the "Invalid address" `HarvardDecadacException` (the spec's
`AddressError`) leaving the transport untouched (the returned trace is the
input trace, so nothing was sent); a write at a valid address whose value
falls outside `[0, 2^32)` fails with the "Writing invalid value" exception
(the spec's register-width `ValueError` category), again before any I/O;
and address 1107296266 itself passes validation: with well-formed responses
the read completes (the upper boundary is inclusive). -/
theorem c7_address_validation :
    (∀ (slot : ℕ) (t : Trace),
      queryAddress slot (-1) 1 false t = (.error .invalidAddress, t) ∧
      queryAddress slot 1107296267 1 false t = (.error .invalidAddress, t) ∧
      writeAddress slot (-1) 0 false t = (.error .invalidAddress, t) ∧
      writeAddress slot 1107296267 0 false t = (.error .invalidAddress, t)) ∧
    (∀ (slot : ℕ) (addr val : ℤ) (t : Trace),
      0 ≤ addr → addr ≤ 1107296266 → val < 0 ∨ 2 ^ 32 ≤ val →
      writeAddress slot addr val false t = (.error .invalidValue, t)) ∧
    (∀ (slot : ℕ) (r s : String) (w : ℤ),
      parseIntResp r = .ok 1107296266 → parseIntResp s = .ok w →
      RunsTo (queryAddress slot 1107296266 1 false) [r, s] w
        ["A" ++ intDec 1107296266 ++ ";", "p;"]) := by
  refine ⟨?_, ?_, ?_⟩
  · intro slot t
    refine ⟨?_, ?_, ?_, ?_⟩ <;>
      simp [queryAddress, writeAddress, throwE, if_neg, if_pos]
  · intro slot addr val t h0 h1 hv
    unfold writeAddress
    rw [if_neg (by push_neg; exact ⟨h0, h1⟩),
      if_pos (by rcases hv with h | h; exact Or.inl h; exact Or.inr (by omega))]
    rfl
  · intro slot r s w hr hs
    have e := queryAddress_runsTo slot [(r, s, w)] (by simp)
      (by norm_num) (by norm_num) ⟨hr, hs, trivial⟩
    simpa [itemResponses, itemWords, wsum, queryCmds] using e

/-- C7 witness: the boundary checks at the explicit inputs from the spec. -/
theorem c7_address_validation_witness :
    queryAddress 0 (-1) 1 false ⟨[], []⟩ = (.error .invalidAddress, ⟨[], []⟩) ∧
    queryAddress 0 1107296267 1 false ⟨[], []⟩ =
      (.error .invalidAddress, ⟨[], []⟩) ∧
    writeAddress 0 1536 (2 ^ 32) false ⟨[], []⟩ =
      (.error .invalidValue, ⟨[], []⟩) ∧
    queryAddress 0 1107296266 1 false ⟨[], ["A1107296266!", "p7!"]⟩ =
      (.ok 7, ⟨["A1107296266;", "p;"], []⟩) := by
  refine ⟨(c7_address_validation.1 0 ⟨[], []⟩).1,
    (c7_address_validation.1 0 ⟨[], []⟩).2.1,
    c7_address_validation.2.1 0 1536 (2 ^ 32) ⟨[], []⟩ (by decide) (by decide)
      (Or.inr (by decide)), ?_⟩
  have e := c7_address_validation.2.2 0 "A1107296266!" "p7!" 7 (by decide)
    (by decide) ⟨[], ["A1107296266!", "p7!"]⟩ [] (by decide)
  exact e.trans (by decide)

/-- C3 (amended): `_dac_parse` strips surrounding whitespace; when the
stripped response is non-empty and its last character is not `'!'` it fails
with the `HarvardDecadacException` "Unexpected terminator" (the spec's
`ProtocolError`); when the input has no non-whitespace characters at all it
instead fails with a Python `IndexError` (`resp[-1]` on an empty string), not
a `ProtocolError`; otherwise it returns `resp.strip()[1:-1]`, the payload
between the one-character command echo and the trailing `'!'`; in particular
`"A1536!" ↦ "1536"` and `"A1536"` fails with the `ProtocolError`. -/
theorem c3_parse_response (s : String) :
    (∀ c, (pyStripL s.data).getLast? = some c → c ≠ '!' →
      dacParse s = .error .badTerminator) ∧
    (pyStripL s.data = [] → dacParse s = .error .indexError) ∧
    ((pyStripL s.data).getLast? = some '!' →
      dacParse s = .ok ⟨((pyStripL (pyStripL s.data)).drop 1).dropLast⟩) ∧
    dacParse "A1536!" = .ok "1536" ∧
    dacParse "A1536" = .error .badTerminator := by
  refine ⟨?_, ?_, ?_, by decide, by decide⟩
  · intro c hc hne
    simp [dacParse, pyStrip, hc, hne]
  · intro hnil
    simp [dacParse, pyStrip, hnil]
  · intro hc
    simp [dacParse, pyStrip, hc]

/-- C3 counterexample: on the whitespace-only input `""` the parser fails
with a Python `IndexError`, which is not the `HarvardDecadacException`
(`ProtocolError`) the claim requires for inputs with no non-whitespace
characters. -/
theorem c3_parse_response_counterexample :
    dacParse "" ≠ .error .badTerminator ∧
    dacParse "" = .error .indexError ∧
    PyErr.indexError.isHarvard = false := by
  refine ⟨by decide, by decide, by decide⟩

/-- C3 witness: the amended theorem applied to the concrete inputs `" A1536"`
(bad terminator), `" "` (whitespace-only), and `" A1536! "` (well-formed). -/
theorem c3_parse_response_witness :
    dacParse " A1536" = .error .badTerminator ∧
    dacParse " " = .error .indexError ∧
    dacParse " A1536! " = .ok "1536" := by
  refine ⟨(c3_parse_response " A1536").1 '6' (by decide) (by decide),
    (c3_parse_response " ").2.1 (by decide), ?_⟩
  have e := (c3_parse_response " A1536! ").2.2.1 (by decide)
  exact e.trans (by decide)

/-- C4: for every channel range with `min_val < max_val` and every voltage in
`[min_val, max_val]`, encoding succeeds and decoding the resulting code
reconstructs the voltage within one code step `(max_val - min_val)/65535`. -/
theorem c4_roundtrip (minVal maxVal volt : ℚ) (hlt : minVal < maxVal)
    (h1 : minVal ≤ volt) (h2 : volt ≤ maxVal) :
    ∃ code : ℤ, dacV2c minVal maxVal volt = .ok code ∧
      |dacC2v minVal maxVal code - volt| ≤ (maxVal - minVal) / 65535 := by
  obtain ⟨hok, hc0, hc1⟩ := dacV2c_ok hlt h1 h2
  have hD : maxVal - minVal ≠ 0 := sub_ne_zero.mpr hlt.ne'
  have hD0 : (0:ℚ) < maxVal - minVal := by linarith
  refine ⟨_, hok, ?_⟩
  set D := maxVal - minVal with hDdef
  set c := pyRound ((volt - minVal) / D * 65535) with hcdef
  have hr := pyRound_sub_abs ((volt - minVal) / D * 65535)
  have hdiff : dacC2v minVal maxVal c - volt =
      ((c : ℚ) - (volt - minVal) / D * 65535) * (D / 65535) := by
    rw [dacC2v, hDdef]
    field_simp
    ring
  rw [hdiff, abs_mul,
    abs_of_pos (show (0:ℚ) < D / 65535 from div_pos hD0 (by norm_num))]
  have h3 : |(c : ℚ) - (volt - minVal) / D * 65535| * (D / 65535) ≤
      (1/2) * (D / 65535) :=
    mul_le_mul_of_nonneg_right hr (div_nonneg hD0.le (by norm_num))
  have h4 : (1/2 : ℚ) * (D / 65535) ≤ D / 65535 := by nlinarith
  linarith

/-- C4 witness: range `[-5, 5]`, voltage `1/3`. -/
theorem c4_roundtrip_witness :
    (-5 : ℚ) < 5 ∧ (-5 : ℚ) ≤ 1/3 ∧ (1/3 : ℚ) ≤ 5 ∧
    ∃ code : ℤ, dacV2c (-5) 5 (1/3) = .ok code ∧
      |dacC2v (-5) 5 code - 1/3| ≤ (5 - -5) / 65535 :=
  ⟨by norm_num, by norm_num, by norm_num,
    c4_roundtrip (-5) 5 (1/3) (by norm_num) (by norm_num) (by norm_num)⟩

/-- C5: for a nondegenerate range, `_dac_v_to_code` fails with the
out-of-range `ValueError` (the spec's `RangeError`) on every voltage outside
`[min_val, max_val]`; on every voltage inside, the computed code
`round(frac * 65535)` lies in `[0, 65535]`, so the conversion returns it and
the defensive out-of-bounds branch (`PyErr.codeBounds`) is not taken. -/
theorem c5_v2c_range (minVal maxVal volt : ℚ) (hlt : minVal < maxVal) :
    ((volt < minVal ∨ volt > maxVal) →
      dacV2c minVal maxVal volt = .error .voltageRange) ∧
    (minVal ≤ volt → volt ≤ maxVal →
      dacV2c minVal maxVal volt =
        .ok (pyRound ((volt - minVal) / (maxVal - minVal) * 65535)) ∧
      0 ≤ pyRound ((volt - minVal) / (maxVal - minVal) * 65535) ∧
      pyRound ((volt - minVal) / (maxVal - minVal) * 65535) ≤ 65535) := by
  constructor
  · intro h
    unfold dacV2c
    rw [if_pos h]
  · intro h1 h2
    exact dacV2c_ok hlt h1 h2

/-- C5 witness: range `[-5, 5]`: voltage `6` is rejected with the range error,
voltage `2` encodes to a code inside `[0, 65535]`. -/
theorem c5_v2c_range_witness :
    dacV2c (-5) 5 6 = .error .voltageRange ∧
    (dacV2c (-5) 5 2 = .ok (pyRound ((2 - -5) / (5 - -5) * 65535)) ∧
      0 ≤ pyRound ((2 - -5) / (5 - -5) * 65535) ∧
      pyRound ((2 - -5) / (5 - -5) * 65535) ≤ 65535) :=
  ⟨(c5_v2c_range (-5) 5 6 (by norm_num)).1 (by norm_num),
    (c5_v2c_range (-5) 5 2 (by norm_num)).2 (by norm_num) (by norm_num)⟩

theorem runsTo_of_eq {m : Step α} {rs rs' cs cs' : List String} {a a' : α}
    (h : RunsTo m rs' a' cs') (hrs : rs = rs') (ha : a = a') (hcs : cs = cs') :
    RunsTo m rs a cs := by
  subst hrs
  subst ha
  subst hcs
  exact h

theorem queryAddress1_runsTo {slot : ℕ} {addr : ℤ} {r s : String} {w : ℤ}
    (h0 : 0 ≤ addr) (h1 : addr ≤ 1107296266)
    (hr : parseIntResp r = .ok addr) (hs : parseIntResp s = .ok w) :
    RunsTo (queryAddress slot addr 1 false) [r, s] w
      ["A" ++ intDec addr ++ ";", "p;"] := by
  have e := queryAddress_runsTo slot [(r, s, w)] (by simp) h0 h1
    ⟨hr, hs, trivial⟩
  simpa [itemResponses, itemWords, wsum, queryCmds] using e

theorem chanBaseAddr_bounds {slot chan : ℕ} (hs : slot ≤ 4) (hc : chan ≤ 3) :
    0 ≤ chanBaseAddr slot chan ∧ chanBaseAddr slot chan + 9 ≤ 1107296266 := by
  unfold chanBaseAddr
  omega

theorem voltGet_runsTo {slot chan : ℕ} (minVal maxVal : ℚ) {r s : String}
    {code : ℤ} (hs4 : slot ≤ 4) (hc3 : chan ≤ 3)
    (hr : parseIntResp r = .ok (chanBaseAddr slot chan + 9))
    (hsv : parseIntResp s = .ok code) :
    RunsTo (voltGet slot chan minVal maxVal) [r, s]
      (dacC2v minVal maxVal code)
      ["A" ++ intDec (chanBaseAddr slot chan + 9) ++ ";", "p;"] := by
  obtain ⟨hb0, hb1⟩ := chanBaseAddr_bounds hs4 hc3
  unfold voltGet
  refine runsTo_of_eq
    (runsTo_bind (queryAddress1_runsTo (by omega) (by omega) hr hsv)
      (runsTo_pure _)) ?_ ?_ ?_ <;> simp

theorem updatePeriodGet_runsTo {slot chan : ℕ} {r s : String} {p : ℤ}
    (hs4 : slot ≤ 4) (hc3 : chan ≤ 3)
    (hr : parseIntResp r = .ok (chanBaseAddr slot chan))
    (hsv : parseIntResp s = .ok p) :
    RunsTo (updatePeriodGet slot chan) [r, s] p
      ["A" ++ intDec (chanBaseAddr slot chan) ++ ";", "p;"] := by
  obtain ⟨hb0, hb1⟩ := chanBaseAddr_bounds hs4 hc3
  exact queryAddress1_runsTo (by omega) (by omega) hr hsv

theorem slopeGet_runsTo {slot chan : ℕ} {r1 s1 r2 s2 : String} {w1 w2 : ℤ}
    (hs4 : slot ≤ 4) (hc3 : chan ≤ 3)
    (hr1 : parseIntResp r1 = .ok (chanBaseAddr slot chan + 6))
    (hs1 : parseIntResp s1 = .ok w1)
    (hr2 : parseIntResp r2 = .ok (chanBaseAddr slot chan + 7))
    (hs2 : parseIntResp s2 = .ok w2) :
    RunsTo (slopeGet slot chan) [r1, s1, r2, s2] (w1 * 2 ^ 32 + w2)
      ["A" ++ intDec (chanBaseAddr slot chan + 6) ++ ";", "p;",
        "A" ++ intDec (chanBaseAddr slot chan + 7) ++ ";", "p;"] := by
  obtain ⟨hb0, hb1⟩ := chanBaseAddr_bounds hs4 hc3
  have h7 : chanBaseAddr slot chan + 6 + 1 = chanBaseAddr slot chan + 7 := by
    ring
  have e := queryAddress_runsTo slot [(r1, s1, w1), (r2, s2, w2)]
    (by simp) (by omega) (by omega)
    ⟨hr1, hs1, by rw [h7]; exact ⟨hr2, hs2, trivial⟩⟩
  unfold slopeGet
  refine runsTo_of_eq e ?_ ?_ ?_
  · simp [itemResponses]
  · simp [itemWords, wsum]
  · simp [queryCmds, h7]

theorem setLimitParam_runsTo (letter : String) {slot chan : ℕ}
    {minVal maxVal val : ℚ} {code : ℤ} {rs : String} (ru : String)
    (hval : ¬(val < minVal ∨ val > maxVal))
    (hcode : dacV2c minVal maxVal val = .ok code)
    (hsel : pyStrip rs = chanSelectEcho slot chan) :
    RunsTo (setLimitParam letter slot chan minVal maxVal val) [rs, ru] ()
      [chanSelectCmd slot chan, letter ++ intDec code ++ ";"] := by
  unfold setLimitParam
  rw [if_neg hval]
  simp only [hcode]
  refine runsTo_of_eq
    (runsTo_bind (runsTo_liftE code)
      (runsTo_bind (setChannel_runsTo hsel)
        (runsTo_bind (runsTo_askRaw (letter ++ intDec code ++ ";") ru)
          (runsTo_pure ())))) ?_ ?_ ?_ <;> simp

theorem setSlopeParam_runsTo {slot chan : ℕ} {slope : ℤ} {rs : String}
    (ru : String) (hsl : ¬(slope < -(2 ^ 32) ∨ slope > 2 ^ 32))
    (hsel : pyStrip rs = chanSelectEcho slot chan) :
    RunsTo (setSlopeParam slot chan slope) [rs, ru] ()
      [chanSelectCmd slot chan, "S" ++ intDec slope ++ ";"] := by
  unfold setSlopeParam
  rw [if_neg hsl]
  refine runsTo_of_eq
    (runsTo_bind (setChannel_runsTo hsel)
      (runsTo_bind (runsTo_askRaw ("S" ++ intDec slope ++ ";") ru)
        (runsTo_pure ()))) ?_ ?_ ?_ <;> simp

/-- Central characterisation of `_ramp` arming under well-formed responses:
the queue holds the voltage read (`r1`/`r2`), the update-period read
(`r3`/`r4`), the channel-select echo and (unchecked) limit-write response
(`r5`/`r6`), and the channel-select echo and slope-write response
(`r7`/`r8`); the armed slope is the truncated-toward-zero slope formula. -/
theorem rampArm_runsTo {slot chan : ℕ} {minVal maxVal val rate : ℚ}
    {r1 r2 r3 r4 r5 r6 r7 r8 : String} {code p cVal eVal slope : ℤ}
    (hs4 : slot ≤ 4) (hc3 : chan ≤ 3)
    (hr1 : parseIntResp r1 = .ok (chanBaseAddr slot chan + 9))
    (hr2 : parseIntResp r2 = .ok code)
    (hne : dacC2v minVal maxVal code ≠ val)
    (hcv : dacV2c minVal maxVal (dacC2v minVal maxVal code) = .ok cVal)
    (hev : dacV2c minVal maxVal val = .ok eVal)
    (hr3 : parseIntResp r3 = .ok (chanBaseAddr slot chan))
    (hr4 : parseIntResp r4 = .ok p)
    (hp : (p : ℚ) ≠ 0) (hrate : rate ≠ 0)
    (hval : ¬(val < minVal ∨ val > maxVal))
    (hsel1 : pyStrip r5 = chanSelectEcho slot chan)
    (hsel2 : pyStrip r7 = chanSelectEcho slot chan)
    (hslope : slope = pyTrunc (((eVal - cVal : ℤ) : ℚ) /
      (1 / ((p : ℚ) * (1 / 1000000)) *
        |(dacC2v minVal maxVal code - val) / rate|) * 65536))
    (hsl : ¬(slope < -(2 ^ 32) ∨ slope > 2 ^ 32)) :
    RunsTo (rampArm slot chan minVal maxVal val rate)
      [r1, r2, r3, r4, r5, r6, r7, r8] (some slope)
      ["A" ++ intDec (chanBaseAddr slot chan + 9) ++ ";", "p;",
        "A" ++ intDec (chanBaseAddr slot chan) ++ ";", "p;",
        chanSelectCmd slot chan,
        (if 0 < slope then "U" else "L") ++ intDec eVal ++ ";",
        chanSelectCmd slot chan, "S" ++ intDec slope ++ ";"] := by
  have hd1 : pyDiv 1 ((p : ℚ) * (1 / 1000000)) =
      .ok (1 / ((p : ℚ) * (1 / 1000000))) := by
    unfold pyDiv
    rw [if_neg (mul_ne_zero hp (by norm_num))]
  have hd2 : pyDiv (dacC2v minVal maxVal code - val) rate =
      .ok ((dacC2v minVal maxVal code - val) / rate) := by
    unfold pyDiv
    rw [if_neg hrate]
  have hsecs : |(dacC2v minVal maxVal code - val) / rate| ≠ 0 := by
    rw [abs_ne_zero]
    exact div_ne_zero (sub_ne_zero.mpr hne) hrate
  have htr : (1 : ℚ) / ((p : ℚ) * (1 / 1000000)) ≠ 0 :=
    one_div_ne_zero (mul_ne_zero hp (by norm_num))
  have hd3 : pyDiv ((eVal - cVal : ℤ) : ℚ)
      (1 / ((p : ℚ) * (1 / 1000000)) *
        |(dacC2v minVal maxVal code - val) / rate|) =
      .ok (((eVal - cVal : ℤ) : ℚ) /
        (1 / ((p : ℚ) * (1 / 1000000)) *
          |(dacC2v minVal maxVal code - val) / rate|)) := by
    unfold pyDiv
    rw [if_neg (mul_ne_zero htr hsecs)]
  intro t rest h
  have e1 := voltGet_runsTo minVal maxVal hs4 hc3 hr1 hr2 t ([r3, r4, r5, r6, r7, r8] ++ rest)
    (by simpa using h)
  have e2 := updatePeriodGet_runsTo hs4 hc3 hr3 hr4
    ⟨t.sent ++ ["A" ++ intDec (chanBaseAddr slot chan + 9) ++ ";", "p;"],
      [r3, r4, r5, r6, r7, r8] ++ rest⟩ ([r5, r6, r7, r8] ++ rest) (by simp)
  simp only at e2
  simp only [rampArm, bind_def, liftE, pure_def, e1, if_neg hne, hcv, hev, e2,
    hd1, hd2, hd3, ← hslope]
  by_cases hpos : 0 < slope
  · simp only [if_pos hpos]
    have e3 := setLimitParam_runsTo "U" r6 hval hev hsel1
      ⟨t.sent ++ ["A" ++ intDec (chanBaseAddr slot chan + 9) ++ ";", "p;"] ++
          ["A" ++ intDec (chanBaseAddr slot chan) ++ ";", "p;"],
        [r5, r6, r7, r8] ++ rest⟩ ([r7, r8] ++ rest) (by simp)
    simp only at e3
    have e4 := setSlopeParam_runsTo r8 hsl hsel2
      ⟨t.sent ++ ["A" ++ intDec (chanBaseAddr slot chan + 9) ++ ";", "p;"] ++
          ["A" ++ intDec (chanBaseAddr slot chan) ++ ";", "p;"] ++
          [chanSelectCmd slot chan, "U" ++ intDec eVal ++ ";"],
        [r7, r8] ++ rest⟩ rest (by simp)
    simp only at e4
    simp only [e3, e4]
    simp [List.append_assoc]
  · simp only [if_neg hpos]
    have e3 := setLimitParam_runsTo "L" r6 hval hev hsel1
      ⟨t.sent ++ ["A" ++ intDec (chanBaseAddr slot chan + 9) ++ ";", "p;"] ++
          ["A" ++ intDec (chanBaseAddr slot chan) ++ ";", "p;"],
        [r5, r6, r7, r8] ++ rest⟩ ([r7, r8] ++ rest) (by simp)
    simp only at e3
    have e4 := setSlopeParam_runsTo r8 hsl hsel2
      ⟨t.sent ++ ["A" ++ intDec (chanBaseAddr slot chan + 9) ++ ";", "p;"] ++
          ["A" ++ intDec (chanBaseAddr slot chan) ++ ";", "p;"] ++
          [chanSelectCmd slot chan, "L" ++ intDec eVal ++ ";"],
        [r7, r8] ++ rest⟩ rest (by simp)
    simp only at e4
    simp only [e3, e4]
    simp [List.append_assoc]

theorem bind_apply (m : Step α) (f : α → Step β) (t : Trace) :
    (m >>= f) t = match m t with
      | (.ok a, t') => f a t'
      | (.error e, t') => (.error e, t') := rfl

theorem pure_ne_zd (a : α) (t : Trace) :
    ((pure a : Step α) t).1 ≠ .error .zeroDivision := by
  simp [pure_def]

theorem askRaw_ne_zd (cmd : String) (t : Trace) :
    (askRaw cmd t).1 ≠ .error .zeroDivision := by
  unfold askRaw
  rcases t with ⟨sent, pending⟩
  cases pending <;> simp

theorem bind_ne_zd_all {m : Step α} {f : α → Step β} {t : Trace}
    (hm : ∀ u : Trace, (m u).1 ≠ .error .zeroDivision)
    (hf : ∀ a u, (f a u).1 ≠ .error .zeroDivision) :
    ((m >>= f) t).1 ≠ .error .zeroDivision := by
  rw [bind_apply]
  rcases hmt : m t with ⟨r, t'⟩
  rcases r with e | a
  · have := hm t
    rw [hmt] at this
    simpa using this
  · simpa using hf a t'

theorem bind_app_ne_zd {m : Step α} {f : α → Step β} {t : Trace} {a : α}
    {t' : Trace} (hm : m t = (.ok a, t'))
    (hf : (f a t').1 ≠ .error .zeroDivision) :
    ((m >>= f) t).1 ≠ .error .zeroDivision := by
  rw [bind_apply, hm]
  simpa using hf

theorem liftE_bind_step {r : Except PyErr α} {a : α} {f : α → Step β}
    {t : Trace} (hr : r = .ok a) (hf : (f a t).1 ≠ .error .zeroDivision) :
    ((liftE r >>= f) t).1 ≠ .error .zeroDivision := by
  subst hr
  simpa [bind_apply, liftE] using hf

theorem setChannel_ne_zd (slot chan : ℕ) (t : Trace) :
    (setChannel slot chan t).1 ≠ .error .zeroDivision := by
  unfold setChannel
  refine bind_ne_zd_all (fun u => askRaw_ne_zd _ u) (fun a u => ?_)
  split_ifs <;> simp [pure_def, throwE]

theorem dacV2c_ne_zd {minVal maxVal v : ℚ} (hlt : minVal < maxVal) :
    dacV2c minVal maxVal v ≠ .error .zeroDivision := by
  have hD : maxVal - minVal ≠ 0 := sub_ne_zero.mpr hlt.ne'
  unfold dacV2c
  split_ifs with h1
  · simp
  · simp only [pyDiv, if_neg hD]
    split_ifs <;> simp

theorem setLimitParam_ne_zd (letter : String) {slot chan : ℕ}
    {minVal maxVal val : ℚ} (hlt : minVal < maxVal) (t : Trace) :
    (setLimitParam letter slot chan minVal maxVal val t).1 ≠
      .error .zeroDivision := by
  unfold setLimitParam
  split_ifs with h1
  · simp [throwE]
  · rcases hv : dacV2c minVal maxVal val with e | c
    · intro hc
      have he : e = .zeroDivision := by simpa [bind_apply, liftE] using hc
      exact dacV2c_ne_zd hlt (he ▸ hv)
    · exact liftE_bind_step rfl
        (bind_ne_zd_all (fun u => setChannel_ne_zd _ _ u)
          (fun a u => bind_ne_zd_all (fun v => askRaw_ne_zd _ v)
            (fun b v => pure_ne_zd _ v)))

theorem setSlopeParam_ne_zd (slot chan : ℕ) (slope : ℤ) (t : Trace) :
    (setSlopeParam slot chan slope t).1 ≠ .error .zeroDivision := by
  unfold setSlopeParam
  split_ifs with h1
  · simp [throwE]
  · exact bind_ne_zd_all (fun u => setChannel_ne_zd _ _ u)
      (fun a u => bind_ne_zd_all (fun v => askRaw_ne_zd _ v)
        (fun b v => pure_ne_zd _ v))

/-- C10 (amended): an armed ramp performs no division by zero provided the
rate is nonzero (the declared validator `Numbers(0, 10)` also accepts 0,
which the counterexample shows does divide by zero) and the update period the
device reports is nonzero; no other response needs to be well-formed for this
to hold. -/
theorem c10_no_div_by_zero {slot chan : ℕ} {minVal maxVal val rate : ℚ}
    {r1 r2 r3 r4 : String} {code p : ℤ}
    (hs4 : slot ≤ 4) (hc3 : chan ≤ 3) (hmin : minVal < maxVal)
    (hr1 : parseIntResp r1 = .ok (chanBaseAddr slot chan + 9))
    (hr2 : parseIntResp r2 = .ok code)
    (hne : dacC2v minVal maxVal code ≠ val)
    (hr3 : parseIntResp r3 = .ok (chanBaseAddr slot chan))
    (hr4 : parseIntResp r4 = .ok p) (hp : p ≠ 0)
    (hrate : 0 < rate) (_hrate10 : rate ≤ 10) :
    ∀ (t : Trace) (rest : List String),
      t.pending = [r1, r2, r3, r4] ++ rest →
      (rampArm slot chan minVal maxVal val rate t).1 ≠
        .error .zeroDivision := by
  intro t rest h
  have hpq : (p : ℚ) ≠ 0 := Int.cast_ne_zero.mpr hp
  have hrate' : rate ≠ 0 := ne_of_gt hrate
  have hd1 : pyDiv 1 ((p : ℚ) * (1 / 1000000)) =
      .ok (1 / ((p : ℚ) * (1 / 1000000))) := by
    unfold pyDiv
    rw [if_neg (mul_ne_zero hpq (by norm_num))]
  have hd2 : pyDiv (dacC2v minVal maxVal code - val) rate =
      .ok ((dacC2v minVal maxVal code - val) / rate) := by
    unfold pyDiv
    rw [if_neg hrate']
  have hsecs : |(dacC2v minVal maxVal code - val) / rate| ≠ 0 := by
    rw [abs_ne_zero]
    exact div_ne_zero (sub_ne_zero.mpr hne) hrate'
  have htr : (1 : ℚ) / ((p : ℚ) * (1 / 1000000)) ≠ 0 :=
    one_div_ne_zero (mul_ne_zero hpq (by norm_num))
  have e1 := voltGet_runsTo minVal maxVal hs4 hc3 hr1 hr2 t ([r3, r4] ++ rest)
    (by simpa using h)
  have e2 := updatePeriodGet_runsTo hs4 hc3 hr3 hr4
    ⟨t.sent ++ ["A" ++ intDec (chanBaseAddr slot chan + 9) ++ ";", "p;"],
      [r3, r4] ++ rest⟩ rest (by simp)
  simp only at e2
  unfold rampArm
  refine bind_app_ne_zd e1 ?_
  simp only [if_neg hne]
  rcases hcv : dacV2c minVal maxVal (dacC2v minVal maxVal code) with e | cVal
  · intro hc
    have he : e = .zeroDivision := by simpa [bind_apply, liftE] using hc
    exact dacV2c_ne_zd hmin (he ▸ hcv)
  · refine liftE_bind_step rfl ?_
    rcases hev : dacV2c minVal maxVal val with e | eVal
    · intro hc
      have he : e = .zeroDivision := by simpa [bind_apply, liftE] using hc
      exact dacV2c_ne_zd hmin (he ▸ hev)
    · refine liftE_bind_step rfl ?_
      refine bind_app_ne_zd e2 ?_
      refine liftE_bind_step hd1 ?_
      refine liftE_bind_step hd2 ?_
      have hdiv3 : pyDiv ((eVal - cVal : ℤ) : ℚ)
          (1 / ((p : ℚ) * (1 / 1000000)) *
            |(dacC2v minVal maxVal code - val) / rate|) =
          .ok (((eVal - cVal : ℤ) : ℚ) /
            (1 / ((p : ℚ) * (1 / 1000000)) *
              |(dacC2v minVal maxVal code - val) / rate|)) := by
        unfold pyDiv
        rw [if_neg (mul_ne_zero htr hsecs)]
      refine liftE_bind_step hdiv3 ?_
      split_ifs
      · exact bind_ne_zd_all (fun u => setLimitParam_ne_zd "U" hmin u)
          (fun a u => bind_ne_zd_all (fun v => setSlopeParam_ne_zd _ _ _ v)
            (fun b v => pure_ne_zd _ v))
      · exact bind_ne_zd_all (fun u => setLimitParam_ne_zd "L" hmin u)
          (fun a u => bind_ne_zd_all (fun v => setSlopeParam_ne_zd _ _ _ v)
            (fun b v => pure_ne_zd _ v))

/-- C10 counterexample: rate `0` is accepted by the `ramp` function's declared
validator `Numbers(0, 10)` (both bounds inclusive), the target `5 V` differs
from the freshly-read current voltage `-5 V`, and the duration computation
`abs((c_volt - val) / rate)` raises `ZeroDivisionError`. -/
theorem c10_counterexample :
    ((0 : ℚ) ≤ 0 ∧ (0 : ℚ) ≤ 10) ∧
    dacC2v (-5) 5 0 ≠ 5 ∧
    (rampArm 0 0 (-5) 5 5 0
      ⟨[], ["A1545!", "p0!", "A1536!", "p100!"]⟩).1 = .error .zeroDivision := by
  exact ⟨⟨by norm_num, by norm_num⟩, by decide, by decide⟩

/-- C10 witness: the amended theorem at range `[-5, 5]`, rate `1/2`, current
code 0, update period 100. -/
theorem c10_no_div_by_zero_witness :
    (rampArm 0 0 (-5) 5 5 (1/2)
      ⟨[], ["A1545!", "p0!", "A1536!", "p100!"]⟩).1 ≠
      .error .zeroDivision := by
  exact @c10_no_div_by_zero 0 0 (-5) 5 5 (1/2) "A1545!" "p0!" "A1536!" "p100!"
    0 100 (by decide) (by decide) (by norm_num) (by decide) (by decide)
    (by decide) (by decide) (by decide) (by decide) (by norm_num) (by norm_num)
    ⟨[], ["A1545!", "p0!", "A1536!", "p100!"]⟩ [] rfl

/-- C1 (amended): when the ramp arms (target differs from the freshly-read
current voltage), the armed slope equals the slope formula
`(target_code - current_code) / (update_rate_hz * duration_sec) * 65536`
truncated toward zero by Python's `int(...)` — not rounded to nearest, as the
counterexample shows — where `update_rate_hz = 1/(update_period_us * 1e-6)`
and `duration_sec = |current_volt - target_volt| / rate`; the slope's sign
selects the upper (`"U"`) or lower (`"L"`) ramp-limit write. -/
theorem c1_ramp_slope_formula {slot chan : ℕ} {minVal maxVal val rate : ℚ}
    {r1 r2 r3 r4 r5 r6 r7 r8 : String} {code p cVal eVal slope : ℤ}
    (hs4 : slot ≤ 4) (hc3 : chan ≤ 3)
    (hr1 : parseIntResp r1 = .ok (chanBaseAddr slot chan + 9))
    (hr2 : parseIntResp r2 = .ok code)
    (hne : dacC2v minVal maxVal code ≠ val)
    (hcv : dacV2c minVal maxVal (dacC2v minVal maxVal code) = .ok cVal)
    (hev : dacV2c minVal maxVal val = .ok eVal)
    (hr3 : parseIntResp r3 = .ok (chanBaseAddr slot chan))
    (hr4 : parseIntResp r4 = .ok p) (hp : p ≠ 0)
    (hrate : 0 < rate) (_hrate10 : rate ≤ 10)
    (hval : ¬(val < minVal ∨ val > maxVal))
    (hsel1 : pyStrip r5 = chanSelectEcho slot chan)
    (hsel2 : pyStrip r7 = chanSelectEcho slot chan)
    (hslope : slope = pyTrunc (((eVal - cVal : ℤ) : ℚ) /
      (1 / ((p : ℚ) * (1 / 1000000)) *
        (|dacC2v minVal maxVal code - val| / rate)) * 65536))
    (hsl : ¬(slope < -(2 ^ 32) ∨ slope > 2 ^ 32)) :
    RunsTo (rampArm slot chan minVal maxVal val rate)
      [r1, r2, r3, r4, r5, r6, r7, r8] (some slope)
      ["A" ++ intDec (chanBaseAddr slot chan + 9) ++ ";", "p;",
        "A" ++ intDec (chanBaseAddr slot chan) ++ ";", "p;",
        chanSelectCmd slot chan,
        (if 0 < slope then "U" else "L") ++ intDec eVal ++ ";",
        chanSelectCmd slot chan, "S" ++ intDec slope ++ ";"] := by
  have hpq : (p : ℚ) ≠ 0 := Int.cast_ne_zero.mpr hp
  have habs : |(dacC2v minVal maxVal code - val) / rate| =
      |dacC2v minVal maxVal code - val| / rate := by
    rw [abs_div, abs_of_pos hrate]
  refine rampArm_runsTo hs4 hc3 hr1 hr2 hne hcv hev hr3 hr4 hpq
    (ne_of_gt hrate) hval hsel1 hsel2 ?_ hsl
  rw [hslope, habs]

/-- C1 counterexample: with range `[-5, 5]`, current code 0 (current voltage
`-5 V`), target `5 V` (code 65535), update period 125 µs and rate `5/2 V/s`,
the code arms slope `int(134215.68) = 134215`, while the claimed
`round(...)` would give `134216`. -/
theorem c1_ramp_slope_counterexample :
    (rampArm 0 0 (-5) 5 5 (5/2)
      ⟨[], ["A1545!", "p0!", "A1536!", "p125!", "B0!C0!", "U65535!",
        "B0!C0!", "S134215!"]⟩).1 = .ok (some 134215) ∧
    pyRound (((65535 - 0 : ℤ) : ℚ) /
      (1 / ((125 : ℚ) * (1 / 1000000)) * (|(-5 : ℚ) - 5| / (5/2))) * 65536) =
      134216 ∧
    (134215 : ℤ) ≠ 134216 := by
  exact ⟨by decide, by decide, by decide⟩

/-- C1 witness: the amended theorem applied at the counterexample's input,
specialised to the empty starting trace. -/
theorem c1_ramp_slope_formula_witness :
    rampArm 0 0 (-5) 5 5 (5/2)
      ⟨[], ["A1545!", "p0!", "A1536!", "p125!", "B0!C0!", "U65535!",
        "B0!C0!", "S134215!"]⟩ =
    (.ok (some 134215),
      ⟨["A1545;", "p;", "A1536;", "p;", "B0;C0;", "U65535;", "B0;C0;",
        "S134215;"], []⟩) := by
  have e := @c1_ramp_slope_formula 0 0 (-5) 5 5 (5/2) "A1545!" "p0!"
    "A1536!" "p125!" "B0!C0!" "U65535!" "B0!C0!" "S134215!" 0 125 0 65535
    134215 (by decide) (by decide) (by decide) (by decide) (by decide)
    (by decide) (by decide) (by decide) (by decide) (by decide) (by norm_num)
    (by norm_num) (by decide) (by decide) (by decide) (by decide) (by decide)
    ⟨[], ["A1545!", "p0!", "A1536!", "p125!", "B0!C0!", "U65535!",
      "B0!C0!", "S134215!"]⟩ [] rfl
  exact e.trans (by decide)

theorem sentOnlyPoll_pure (a : α) : SentOnlyPoll (pure a : Step α) := by
  intro t
  exact ⟨[], by simp [pure_def], by simp⟩

theorem sentOnlyPoll_throwE (e : PyErr) : SentOnlyPoll (throwE e : Step α) := by
  intro t
  exact ⟨[], by simp [throwE], by simp⟩

theorem sentOnlyPoll_liftE (r : Except PyErr α) : SentOnlyPoll (liftE r) := by
  intro t
  exact ⟨[], by simp [liftE], by simp⟩

theorem sentOnlyPoll_askRaw {cmd : String} (hc : IsPollCmd cmd) :
    SentOnlyPoll (askRaw cmd) := by
  intro t
  refine ⟨[cmd], ?_, by simpa using hc⟩
  unfold askRaw
  rcases t with ⟨sent, pending⟩
  cases pending <;> simp

theorem sentOnlyPoll_bind {m : Step α} {f : α → Step β}
    (hm : SentOnlyPoll m) (hf : ∀ a, SentOnlyPoll (f a)) :
    SentOnlyPoll (m >>= f) := by
  intro t
  rw [bind_apply]
  rcases hmt : m t with ⟨r, t'⟩
  obtain ⟨e1, he1, hp1⟩ := hm t
  rw [hmt] at he1
  rcases r with e | a
  · exact ⟨e1, by simpa using he1, hp1⟩
  · obtain ⟨e2, he2, hp2⟩ := hf a t'
    refine ⟨e1 ++ e2, ?_, ?_⟩
    · rw [he2, he1, List.append_assoc]
    · intro c hc
      rcases List.mem_append.mp hc with h | h
      · exact hp1 c h
      · exact hp2 c h

theorem sentOnlyPoll_ite {c : Prop} [Decidable c] {m₁ m₂ : Step α}
    (h1 : SentOnlyPoll m₁) (h2 : SentOnlyPoll m₂) :
    SentOnlyPoll (if c then m₁ else m₂) := by
  split_ifs
  · exact h1
  · exact h2

theorem sentOnlyPoll_queryLoop : ∀ (n : ℕ) (addr v : ℤ),
    SentOnlyPoll (queryLoop "p;" n addr v) := by
  intro n
  induction n with
  | zero => intro addr v; exact sentOnlyPoll_pure v
  | succ k ih =>
    intro addr v
    unfold queryLoop
    refine sentOnlyPoll_bind (sentOnlyPoll_askRaw (Or.inr ⟨addr, rfl⟩))
      (fun r => ?_)
    refine sentOnlyPoll_bind (sentOnlyPoll_liftE _) (fun ret => ?_)
    refine sentOnlyPoll_ite (sentOnlyPoll_throwE _) ?_
    refine sentOnlyPoll_bind (sentOnlyPoll_askRaw (Or.inl rfl)) (fun w => ?_)
    refine sentOnlyPoll_bind (sentOnlyPoll_liftE _) (fun wv => ?_)
    exact ih (addr + 1) (v + wv * 2 ^ (32 * k))

theorem sentOnlyPoll_slopeGet (slot chan : ℕ) :
    SentOnlyPoll (slopeGet slot chan) := by
  have h : slopeGet slot chan =
      if chanBaseAddr slot chan + 6 < 0 ∨ chanBaseAddr slot chan + 6 > 1107296266
      then throwE .invalidAddress
      else queryLoop "p;" 2 (chanBaseAddr slot chan + 6) 0 := by
    unfold slopeGet queryAddress
    rw [if_neg (by norm_num)]
    split_ifs <;> first | rfl | exact absurd (by assumption) not_false
  rw [h]
  exact sentOnlyPoll_ite (sentOnlyPoll_throwE _) (sentOnlyPoll_queryLoop 2 _ 0)

theorem sentOnlyPoll_pollSlope (slot chan : ℕ) : ∀ fuel : ℕ,
    SentOnlyPoll (pollSlope slot chan fuel) := by
  intro fuel
  induction fuel with
  | zero => exact sentOnlyPoll_throwE _
  | succ k ih =>
    unfold pollSlope
    refine sentOnlyPoll_bind (sentOnlyPoll_slopeGet slot chan) (fun s => ?_)
    exact sentOnlyPoll_ite ih (sentOnlyPoll_pure ())

/-- C8: in every ramp invocation that arms the device, exactly one ramp-limit
write is issued — `"U..."` (upper) when the computed slope is positive, else
`"L..."` (lower), carrying the target voltage's code — and in the transport
command sequence that limit write precedes the slope write `"S..."`;
whatever follows (the optional blocking poll) consists of slope-poll commands
only, never another write.  Holds for both `block` modes and any fuel. -/
theorem c8_limit_before_slope {slot chan : ℕ} {minVal maxVal val rate : ℚ}
    {r1 r2 r3 r4 r5 r6 r7 r8 : String} {code p cVal eVal slope : ℤ}
    (hs4 : slot ≤ 4) (hc3 : chan ≤ 3)
    (hr1 : parseIntResp r1 = .ok (chanBaseAddr slot chan + 9))
    (hr2 : parseIntResp r2 = .ok code)
    (hne : dacC2v minVal maxVal code ≠ val)
    (hcv : dacV2c minVal maxVal (dacC2v minVal maxVal code) = .ok cVal)
    (hev : dacV2c minVal maxVal val = .ok eVal)
    (hr3 : parseIntResp r3 = .ok (chanBaseAddr slot chan))
    (hr4 : parseIntResp r4 = .ok p)
    (hp : (p : ℚ) ≠ 0) (hrate : rate ≠ 0)
    (hval : ¬(val < minVal ∨ val > maxVal))
    (hsel1 : pyStrip r5 = chanSelectEcho slot chan)
    (hsel2 : pyStrip r7 = chanSelectEcho slot chan)
    (hslope : slope = pyTrunc (((eVal - cVal : ℤ) : ℚ) /
      (1 / ((p : ℚ) * (1 / 1000000)) *
        |(dacC2v minVal maxVal code - val) / rate|) * 65536))
    (hsl : ¬(slope < -(2 ^ 32) ∨ slope > 2 ^ 32))
    (block : Bool) (fuel : ℕ) :
    ∀ (t : Trace) (rest : List String),
      t.pending = [r1, r2, r3, r4, r5, r6, r7, r8] ++ rest →
      ∃ pollSent, (∀ c ∈ pollSent, IsPollCmd c) ∧
        (ramp slot chan minVal maxVal val rate block fuel t).2.sent =
          t.sent ++
            ["A" ++ intDec (chanBaseAddr slot chan + 9) ++ ";", "p;",
              "A" ++ intDec (chanBaseAddr slot chan) ++ ";", "p;",
              chanSelectCmd slot chan,
              (if 0 < slope then "U" else "L") ++ intDec eVal ++ ";",
              chanSelectCmd slot chan, "S" ++ intDec slope ++ ";"] ++
            pollSent := by
  intro t rest h
  have e := rampArm_runsTo hs4 hc3 hr1 hr2 hne hcv hev hr3 hr4 hp hrate hval
    hsel1 hsel2 hslope hsl t rest h
  unfold ramp
  rw [bind_apply, e]
  cases block
  · exact ⟨[], by simp, by simp [pure_def]⟩
  · obtain ⟨extra, hsent, hpoll⟩ :=
      sentOnlyPoll_bind (sentOnlyPoll_pollSlope slot chan fuel)
        (fun a => sentOnlyPoll_pure (some slope))
      ⟨t.sent ++
        ["A" ++ intDec (chanBaseAddr slot chan + 9) ++ ";", "p;",
          "A" ++ intDec (chanBaseAddr slot chan) ++ ";", "p;",
          chanSelectCmd slot chan,
          (if 0 < slope then "U" else "L") ++ intDec eVal ++ ";",
          chanSelectCmd slot chan, "S" ++ intDec slope ++ ";"], rest⟩
    refine ⟨extra, hpoll, ?_⟩
    simpa [List.append_assoc] using hsent

/-- C8 witness: the theorem at the C1 scenario with `block = true`, fuel 1,
and a poll that immediately reads slope 0; the single limit write `"U65535;"`
precedes `"S134215;"` and the trailing commands are polls only. -/
theorem c8_limit_before_slope_witness :
    ∃ pollSent, (∀ c ∈ pollSent, IsPollCmd c) ∧
      (ramp 0 0 (-5) 5 5 (5/2) true 1
        ⟨[], ["A1545!", "p0!", "A1536!", "p125!", "B0!C0!", "U65535!",
          "B0!C0!", "S134215!", "A1542!", "p0!", "A1543!", "p0!"]⟩).2.sent =
        [] ++ ["A1545;", "p;", "A1536;", "p;", "B0;C0;",
          (if 0 < (134215 : ℤ) then "U" else "L") ++ intDec 65535 ++ ";",
          "B0;C0;", "S134215;"] ++ pollSent := by
  have e := @c8_limit_before_slope 0 0 (-5) 5 5 (5/2) "A1545!" "p0!"
    "A1536!" "p125!" "B0!C0!" "U65535!" "B0!C0!" "S134215!" 0 125 0 65535
    134215 (by decide) (by decide) (by decide) (by decide) (by decide)
    (by decide) (by decide) (by decide) (by decide) (by norm_num)
    (by norm_num) (by decide) (by decide) (by decide) (by decide) (by decide)
    true 1
    ⟨[], ["A1545!", "p0!", "A1536!", "p125!", "B0!C0!", "U65535!",
      "B0!C0!", "S134215!", "A1542!", "p0!", "A1543!", "p0!"]⟩
    ["A1542!", "p0!", "A1543!", "p0!"] rfl
  obtain ⟨pollSent, hpoll, hsent⟩ := e
  refine ⟨pollSent, hpoll, ?_⟩
  rw [hsent]
  exact congrArg (· ++ pollSent) (by decide)

theorem ramp_false_of_arm {slot chan : ℕ} {minVal maxVal val rate : ℚ}
    {rs cs : List String} {s : ℤ} (fuel : ℕ)
    (h : RunsTo (rampArm slot chan minVal maxVal val rate) rs (some s) cs) :
    RunsTo (ramp slot chan minVal maxVal val rate false fuel) rs (some s)
      cs := by
  intro t rest hp
  unfold ramp
  rw [bind_apply, h t rest hp]
  rfl

theorem pollSlope_runsTo_zero {slot chan : ℕ} {rs cs : List String} (f : ℕ)
    (h : RunsTo (slopeGet slot chan) rs 0 cs) :
    RunsTo (pollSlope slot chan (f + 1)) rs () cs := by
  intro t rest hp
  unfold pollSlope
  rw [bind_apply, h t rest hp]
  rfl

set_option maxHeartbeats 1000000 in
theorem armChannels_runsTo (minVal maxVal volt rate : ℚ)
    (armR armC : ℕ × ℕ → List String) (armS : ℕ × ℕ → ℤ) :
    ∀ l : List (ℕ × ℕ),
      (∀ sc ∈ l, RunsTo (rampArm sc.1 sc.2 minVal maxVal volt rate)
        (armR sc) (some (armS sc)) (armC sc)) →
      RunsTo (armChannels minVal maxVal volt rate l) (l.flatMap armR) ()
        (l.flatMap armC) := by
  intro l
  induction l with
  | nil =>
    intro _
    exact runsTo_of_eq (runsTo_pure ()) (by simp) rfl (by simp)
  | cons sc rest ih =>
    intro hl
    unfold armChannels
    refine runsTo_of_eq
      (runsTo_bind (ramp_false_of_arm 0 (hl sc (by simp)))
        (ih (fun x hx => hl x (List.mem_cons_of_mem _ hx)))) ?_ rfl ?_ <;>
      simp

theorem pollChannels_runsTo (pollR pollC : ℕ × ℕ → List String) (f : ℕ) :
    ∀ l : List (ℕ × ℕ),
      (∀ sc ∈ l, RunsTo (slopeGet sc.1 sc.2) (pollR sc) 0 (pollC sc)) →
      RunsTo (pollChannels (f + 1) l) (l.flatMap pollR) ()
        (l.flatMap pollC) := by
  intro l
  induction l with
  | nil =>
    intro _
    exact runsTo_of_eq (runsTo_pure ()) (by simp) rfl (by simp)
  | cons sc rest ih =>
    intro hl
    unfold pollChannels
    refine runsTo_of_eq
      (runsTo_bind (pollSlope_runsTo_zero f (hl sc (by simp)))
        (ih (fun x hx => hl x (List.mem_cons_of_mem _ hx)))) ?_ rfl ?_ <;>
      simp

/-- C9: `ramp_all` first arms every channel with `block=False` in
slot-ascending then channel-ascending (0–3) declaration order
(`decadacChannels`), so every slope-arming command is issued before any
slope-poll command, and then polls each channel's slope register in the same
order until each reads 0: the consumed responses and issued commands are
exactly the per-channel arm blocks in order followed by the per-channel poll
blocks in order. -/
theorem c9_ramp_all_order (minVal maxVal volt rate : ℚ) (fuel : ℕ)
    (armR armC pollR pollC : ℕ × ℕ → List String) (armS : ℕ × ℕ → ℤ)
    (hfuel : 0 < fuel)
    (harm : ∀ sc ∈ decadacChannels,
      RunsTo (rampArm sc.1 sc.2 minVal maxVal volt rate) (armR sc)
        (some (armS sc)) (armC sc))
    (hpoll : ∀ sc ∈ decadacChannels,
      RunsTo (slopeGet sc.1 sc.2) (pollR sc) 0 (pollC sc)) :
    RunsTo (rampAll minVal maxVal volt rate fuel)
      (decadacChannels.flatMap armR ++ decadacChannels.flatMap pollR) ()
      (decadacChannels.flatMap armC ++ decadacChannels.flatMap pollC) := by
  obtain ⟨f, rfl⟩ : ∃ f, fuel = f + 1 := ⟨fuel - 1, by omega⟩
  unfold rampAll
  exact runsTo_bind
    (armChannels_runsTo minVal maxVal volt rate armR armC armS
      decadacChannels harm)
    (pollChannels_runsTo pollR pollC f decadacChannels hpoll)

theorem wArm_one : ∀ s c : ℕ, s ≤ 4 → c ≤ 3 →
    RunsTo (rampArm s c (-5) 5 5 (1/2)) (wArmR (s, c)) (some 21474)
      (wArmC (s, c)) := by
  intro s c hs hc
  interval_cases s <;> interval_cases c <;>
    exact @rampArm_runsTo _ _ (-5) 5 5 (1/2) _ _ _ _ _ _ _ _ 0 100 0 65535
      21474 (by decide) (by decide) (by decide) (by decide) (by decide)
      (by decide) (by decide) (by decide) (by decide) (by norm_num)
      (by norm_num) (by decide) (by decide) (by decide) (by decide)
      (by decide)

theorem wPoll_one : ∀ s c : ℕ, s ≤ 4 → c ≤ 3 →
    RunsTo (slopeGet s c) (wPollR (s, c)) 0 (wPollC (s, c)) := by
  intro s c hs hc
  interval_cases s <;> interval_cases c <;>
    exact runsTo_of_eq
      (@slopeGet_runsTo _ _ _ _ _ _ 0 0 (by decide) (by decide) (by decide)
        (by decide) (by decide) (by decide)) rfl (by decide) rfl

/-- C9 witness: the theorem at the concrete fleet scenario (every channel at
code 0, period 100, target 5 V, rate 1/2, fuel 1), from the empty trace. -/
theorem c9_ramp_all_order_witness :
    rampAll (-5) 5 5 (1/2) 1
      ⟨[], decadacChannels.flatMap wArmR ++ decadacChannels.flatMap wPollR⟩ =
    (.ok (), ⟨decadacChannels.flatMap wArmC ++ decadacChannels.flatMap wPollC,
      []⟩) := by
  have harm : ∀ sc ∈ decadacChannels,
      RunsTo (rampArm sc.1 sc.2 (-5) 5 5 (1/2)) (wArmR sc)
        (some ((fun _ => (21474 : ℤ)) sc)) (wArmC sc) := by
    intro sc hsc
    fin_cases hsc <;> exact wArm_one _ _ (by decide) (by decide)
  have hpoll : ∀ sc ∈ decadacChannels,
      RunsTo (slopeGet sc.1 sc.2) (wPollR sc) 0 (wPollC sc) := by
    intro sc hsc
    fin_cases hsc <;> exact wPoll_one _ _ (by decide) (by decide)
  have e := c9_ramp_all_order (-5) 5 5 (1/2) 1 wArmR wArmC wPollR wPollC
    (fun _ => 21474) one_pos harm hpoll
    ⟨[], decadacChannels.flatMap wArmR ++ decadacChannels.flatMap wPollR⟩ []
    (by simp)
  simpa using e

/-- C2 (code-bug evidence): run `_feature_detect` at construction time on a
transport whose EEPROM probe answers 21930, whose versa-EEPROM probe
answers, whose `"k;"` calibration probe yields the valid but EMPTY response
`"k!"`, and whose version/serial reads answer 14081/139.  The code takes the
`if self._dac_parse(...)` falsy path, which assigns nothing: the
`_cal_supported` attribute is left unassigned (`cal = none`) instead of being
set `False` as the claim states (a later read of the attribute, e.g. during
slot construction, raises `AttributeError`).  The remaining detection steps
do still run: the version and serial number are read afterwards, as the
command trace and the populated fields show. -/
theorem c2_cal_flag_unassigned :
    featureDetect ⟨[], ["A1107296256!", "p21930!", "B0!", "A6!", "e5!", "k!",
      "A1107296266!", "p14081!", "A1107296264!", "p139!"]⟩ =
    (.ok ⟨true, false, none, 14081, 139⟩,
      ⟨["A1107296256;", "p;", "B0;", "A6;", "e;", "k;", "A1107296266;", "p;",
        "A1107296264;", "p;"], []⟩) ∧
    (none : Option Bool) ≠ some false := by
  exact ⟨by decide, by decide⟩

